import Mathlib

/-!
Verification of the direct-mapped cache controller described by this
repository.  The repository ships only a usage note for the
`direct_mapped_cache` module (`src/aied/usage.rs`); the module itself is not
under `src/`, so the controller is modelled from the specification
(spec.md §3–§6) and every claim is settled against that model.
-/

namespace DMCache

/-- Modelled from the spec: the construction-time configuration of the
controller — the three fixed field widths of an address (`tag`, `index`,
`offset`).  The number of cache lines is `2 ^ indexBits` and the block size is
`2 ^ offsetBits`, so both are powers of two as §6 requires; the missing
`direct_mapped_cache` module's parameters are represented by these widths. -/
structure Config where
  tagBits : Nat
  indexBits : Nat
  offsetBits : Nat
deriving Repr, DecidableEq

/-- Total address width: the three fields partition the address. -/
def Config.addrWidth (c : Config) : Nat := c.tagBits + c.indexBits + c.offsetBits

/-- Modelled from the spec: the `tag` field of an address (upper bits). -/
def tagOf (c : Config) (a : Nat) : Nat := a / 2 ^ (c.indexBits + c.offsetBits)

/-- Modelled from the spec: the `index` field of an address (middle bits),
selecting the one slot that can hold the block. -/
def indexOf (c : Config) (a : Nat) : Nat := a / 2 ^ c.offsetBits % 2 ^ c.indexBits

/-- Modelled from the spec: the `offset` field of an address (low bits),
selecting a unit within the block. -/
def offsetOf (c : Config) (a : Nat) : Nat := a % 2 ^ c.offsetBits

/-- Reassemble an address from its three fields. -/
def recompose (c : Config) (t i o : Nat) : Nat :=
  (t * 2 ^ c.indexBits + i) * 2 ^ c.offsetBits + o

/-- The block-level memory address formed from a tag and an index
(`tag + index` in the spec's words): the address with the offset dropped. -/
def blockAddr (c : Config) (t i : Nat) : Nat := t * 2 ^ c.indexBits + i

/-- Modelled from the spec: one cache line slot — `tag`, `valid`, `dirty`
metadata and the block `data`, addressable by the offset bits. -/
structure Slot where
  tag : Nat
  valid : Bool
  dirty : Bool
  data : List Nat
deriving Repr, DecidableEq

/-- Modelled from the spec: the controller state — the slot array (indexed by
the address's index field) together with the backing memory it drives, which
maps a block address to the block stored there. -/
structure CacheState where
  slots : Nat → Slot
  mem : Nat → List Nat

/-- A CPU request is a read or a write of one addressable unit. -/
inductive Op where
  | read : Op
  | write : Nat → Op
deriving Repr, DecidableEq

/-- An operation observed on the memory-facing handshake. -/
inductive MemEvent where
  | memWrite : Nat → List Nat → MemEvent
  | memRead : Nat → MemEvent
deriving Repr, DecidableEq

/-- Modelled from the spec: the hit test — slot at `index` is a hit iff
`valid == true AND slot.tag == tag`. -/
def isHit (c : Config) (s : CacheState) (a : Nat) : Bool :=
  let slot := s.slots (indexOf c a)
  slot.valid && slot.tag == tagOf c a

/-- Modelled from the spec: the hit path (step 3).  Read returns
`slot.data[offset]`; write updates `slot.data[offset]` and sets
`slot.dirty = true`.  Returns the new state and the read data (0 for a
write).  No memory-facing traffic occurs on this path. -/
def hitStep (c : Config) (s : CacheState) (a : Nat) (op : Op) :
    CacheState × Nat :=
  let idx := indexOf c a
  let slot := s.slots idx
  match op with
  | Op.read => (s, slot.data.getD (offsetOf c a) 0)
  | Op.write w =>
      ({ s with slots := fun j => if j = idx then
            { slot with data := slot.data.set (offsetOf c a) w, dirty := true }
          else s.slots j }, 0)

/-- Modelled from the spec: miss step 4a — if the resident slot is valid and
dirty, issue a memory write of the slot's full block to the address formed
from `slot.tag + index` and wait for completion; otherwise do nothing.
Returns the new state and the memory events issued. -/
def writebackIfDirty (c : Config) (s : CacheState) (a : Nat) :
    CacheState × List MemEvent :=
  let idx := indexOf c a
  let slot := s.slots idx
  if slot.valid && slot.dirty then
    ({ s with mem := fun b => if b = blockAddr c slot.tag idx then slot.data
          else s.mem b },
     [MemEvent.memWrite (blockAddr c slot.tag idx) slot.data])
  else (s, [])

/-- Modelled from the spec: miss step 4b — issue a memory read of the full
block at the new `tag + index`, wait for completion, store the returned data
into `slot.data`, set `slot.tag = tag`, `slot.valid = true`,
`slot.dirty = false`. -/
def refill (c : Config) (s : CacheState) (a : Nat) :
    CacheState × List MemEvent :=
  let idx := indexOf c a
  let newData := s.mem (blockAddr c (tagOf c a) idx)
  ({ s with slots := fun j => if j = idx then
        { tag := tagOf c a, valid := true, dirty := false, data := newData }
      else s.slots j },
   [MemEvent.memRead (blockAddr c (tagOf c a) idx)])

/-- Modelled from the spec: one complete `access` (§4.1): decompose, hit
test, then either the one-cycle hit path, or the miss path — write-back if
dirty, refill, and re-run against the now-resident slot exactly as in the hit
path.  Returns the final state, the read data, and the memory events issued
in order. -/
def access (c : Config) (s : CacheState) (a : Nat) (op : Op) :
    CacheState × Nat × List MemEvent :=
  if isHit c s a then
    let r := hitStep c s a op
    (r.1, r.2, [])
  else
    let wb := writebackIfDirty c s a
    let rf := refill c wb.1 a
    let r := hitStep c rf.1 a op
    (r.1, r.2, wb.2 ++ rf.2)

/-- Run a sequence of accesses, threading the state. -/
def run (c : Config) (s : CacheState) : List (Nat × Op) → CacheState
  | [] => s
  | r :: rs => run c (access c s r.1 r.2).1 rs

/-- Well-formed state: every memory block and every slot's data block has
exactly `2 ^ offsetBits` addressable units (the line size). -/
def WF (c : Config) (s : CacheState) : Prop :=
  (∀ b, (s.mem b).length = 2 ^ c.offsetBits) ∧
  (∀ j, (s.slots j).data.length = 2 ^ c.offsetBits)

/-- Modelled from the spec: the number of busy cycles the controller spends
servicing a miss — the write-back wait (present only when the resident slot
is valid and dirty) followed by the refill wait, for the given memory
latencies. -/
def missCycles (c : Config) (s : CacheState) (a : Nat) (wbLat rfLat : Nat) :
    Nat :=
  (if (s.slots (indexOf c a)).valid && (s.slots (indexOf c a)).dirty
    then wbLat else 0) + rfLat

/-- Modelled from the spec: the CPU-facing `cpu_wait` signal of the missing
`direct_mapped_cache` module, cycle by cycle, for one access: never asserted
on a hit; on a miss, asserted for the whole multi-cycle service duration and
deasserted on the cycle after the final refill sub-step completes. -/
def cpu_wait (c : Config) (s : CacheState) (a : Nat) (wbLat rfLat : Nat) :
    List Bool :=
  if isHit c s a then [false]
  else List.replicate (missCycles c s a wbLat rfLat) true ++ [false]

/-- Is `n` a power of two? -/
def isPow2 (n : Nat) : Bool := 2 ^ Nat.log2 n == n

/-- Modelled from the spec: construction of a configuration from the raw
parameters — address width, number of cache lines, block size.  Malformed
parameters (non-power-of-two line count or block size, or an address width
too small to cover the field split) fail fast here, at construction time,
by yielding `none`; `access` itself performs no validity check. -/
def mkConfig (addrWidth numLines blockSize : Nat) : Option Config :=
  if isPow2 numLines = true ∧ isPow2 blockSize = true ∧
      Nat.log2 numLines + Nat.log2 blockSize ≤ addrWidth then
    some ⟨addrWidth - (Nat.log2 numLines + Nat.log2 blockSize),
      Nat.log2 numLines, Nat.log2 blockSize⟩
  else none

/-- A small concrete configuration: 2 tag bits, 4 lines, 4 units per block. -/
def cfg0 : Config := ⟨2, 2, 2⟩

/-- A concrete state whose slot 1 is valid and clean with tag 2. -/
def stClean : CacheState :=
  ⟨fun j => if j = 1 then ⟨2, true, false, [10, 11, 12, 13]⟩
    else ⟨0, false, false, [0, 0, 0, 0]⟩,
   fun _ => [5, 6, 7, 8]⟩

/-- A concrete state whose slot 1 is valid and dirty with tag 3. -/
def stDirty : CacheState :=
  ⟨fun j => if j = 1 then ⟨3, true, true, [20, 21, 22, 23]⟩
    else ⟨0, false, false, [0, 0, 0, 0]⟩,
   fun _ => [5, 6, 7, 8]⟩

/-- A concrete all-invalid (cold) state. -/
def stCold : CacheState :=
  ⟨fun _ => ⟨0, false, false, [0, 0, 0, 0]⟩, fun _ => [5, 6, 7, 8]⟩

/- Arithmetic helpers for the field decomposition. -/

lemma mul_add_div_eq (k r b : Nat) (hb : 0 < b) (hr : r < b) :
    (k * b + r) / b = k := by
  rw [Nat.mul_comm, Nat.mul_add_div hb, Nat.div_eq_of_lt hr, Nat.add_zero]

lemma mul_add_mod_eq (k r b : Nat) (hr : r < b) : (k * b + r) % b = r := by
  rw [Nat.mul_comm, Nat.mul_add_mod, Nat.mod_eq_of_lt hr]

lemma offsetOf_recompose (c : Config) (t i o : Nat) (ho : o < 2 ^ c.offsetBits) :
    offsetOf c (recompose c t i o) = o := by
  unfold offsetOf recompose
  exact mul_add_mod_eq _ _ _ ho

lemma indexOf_recompose (c : Config) (t i o : Nat)
    (hi : i < 2 ^ c.indexBits) (ho : o < 2 ^ c.offsetBits) :
    indexOf c (recompose c t i o) = i := by
  unfold indexOf recompose
  rw [mul_add_div_eq _ _ _ (by positivity) ho, mul_add_mod_eq _ _ _ hi]

lemma tagOf_recompose (c : Config) (t i o : Nat)
    (hi : i < 2 ^ c.indexBits) (ho : o < 2 ^ c.offsetBits) :
    tagOf c (recompose c t i o) = t := by
  unfold tagOf recompose
  rw [add_comm c.indexBits c.offsetBits, pow_add, ← Nat.div_div_eq_div_mul,
    mul_add_div_eq _ _ _ (by positivity) ho, mul_add_div_eq _ _ _ (by positivity) hi]

lemma recompose_decompose (c : Config) (a : Nat) :
    recompose c (tagOf c a) (indexOf c a) (offsetOf c a) = a := by
  unfold recompose tagOf indexOf offsetOf
  rw [add_comm c.indexBits c.offsetBits, pow_add, ← Nat.div_div_eq_div_mul,
    Nat.div_add_mod', Nat.div_add_mod']

/- Structural helpers about the controller's sub-steps. -/

lemma hit_parts (c : Config) (s : CacheState) (a : Nat)
    (h : isHit c s a = true) :
    (s.slots (indexOf c a)).valid = true ∧
    (s.slots (indexOf c a)).tag = tagOf c a := by
  unfold isHit at h
  simpa using h

lemma writebackIfDirty_slots (c : Config) (s : CacheState) (a : Nat) :
    (writebackIfDirty c s a).1.slots = s.slots := by
  unfold writebackIfDirty
  by_cases h : ((s.slots (indexOf c a)).valid &&
      (s.slots (indexOf c a)).dirty) = true
  · rw [if_pos h]
  · rw [if_neg h]

lemma refill_slots_other (c : Config) (s : CacheState) (a : Nat) (idx : Nat)
    (hne : indexOf c a ≠ idx) :
    (refill c s a).1.slots idx = s.slots idx := by
  unfold refill
  simp [Ne.symm hne]

lemma hitStep_slots_other (c : Config) (s : CacheState) (a : Nat) (op : Op)
    (idx : Nat) (hne : indexOf c a ≠ idx) :
    (hitStep c s a op).1.slots idx = s.slots idx := by
  cases op with
  | read => rfl
  | write w =>
    unfold hitStep
    simp [Ne.symm hne]

lemma access_preserves_other_slot (c : Config) (s : CacheState) (a : Nat)
    (op : Op) (idx : Nat) (hne : indexOf c a ≠ idx) :
    (access c s a op).1.slots idx = s.slots idx := by
  unfold access
  by_cases h : isHit c s a = true
  · rw [if_pos h]
    exact hitStep_slots_other c s a op idx hne
  · rw [if_neg h]
    show (hitStep c (refill c (writebackIfDirty c s a).1 a).1 a op).1.slots idx
      = s.slots idx
    rw [hitStep_slots_other _ _ _ _ _ hne, refill_slots_other _ _ _ _ hne,
      writebackIfDirty_slots]

lemma read_hit_state_id (c : Config) (s : CacheState) (a : Nat)
    (h : isHit c s a = true) :
    (access c s a Op.read).1 = s := by
  unfold access
  rw [if_pos h]
  rfl

lemma getD_set_self (l : List Nat) (i v : Nat) (h : i < l.length) :
    (l.set i v).getD i 0 = v := by
  induction l generalizing i with
  | nil => exact absurd h (by simp)
  | cons x xs ih =>
    cases i with
    | zero => rfl
    | succ n => exact ih n (Nat.lt_of_succ_lt_succ h)

lemma getElem?_set_self (l : List Nat) (i v : Nat) (h : i < l.length) :
    (l.set i v)[i]?.getD 0 = v := by
  induction l generalizing i with
  | nil => exact absurd h (by simp)
  | cons x xs ih =>
    cases i with
    | zero => simp
    | succ n => simpa using ih n (Nat.lt_of_succ_lt_succ h)

lemma wf_writebackIfDirty (c : Config) (s : CacheState) (a : Nat)
    (hwf : WF c s) : WF c (writebackIfDirty c s a).1 := by
  obtain ⟨hm, hs⟩ := hwf
  unfold writebackIfDirty
  by_cases h : ((s.slots (indexOf c a)).valid &&
      (s.slots (indexOf c a)).dirty) = true
  · rw [if_pos h]
    refine ⟨fun b => ?_, hs⟩
    by_cases hb : b = blockAddr c (s.slots (indexOf c a)).tag (indexOf c a)
    · simp [hb, hs]
    · simp [hb, hm]
  · rw [if_neg h]
    exact ⟨hm, hs⟩

lemma wf_refill (c : Config) (s : CacheState) (a : Nat) (hwf : WF c s) :
    WF c (refill c s a).1 := by
  obtain ⟨hm, hs⟩ := hwf
  unfold refill
  refine ⟨hm, fun j => ?_⟩
  by_cases hj : j = indexOf c a
  · simp [hj, hm]
  · simp [hj, hs]

lemma wf_hitStep (c : Config) (s : CacheState) (a : Nat) (op : Op)
    (hwf : WF c s) : WF c (hitStep c s a op).1 := by
  obtain ⟨hm, hs⟩ := hwf
  cases op with
  | read => exact ⟨hm, hs⟩
  | write w =>
    refine ⟨hm, fun j => ?_⟩
    unfold hitStep
    by_cases hj : j = indexOf c a
    · simp [hj, hs]
    · simp [hj, hs]

lemma wf_access (c : Config) (s : CacheState) (a : Nat) (op : Op)
    (hwf : WF c s) : WF c (access c s a op).1 := by
  unfold access
  by_cases h : isHit c s a = true
  · rw [if_pos h]
    exact wf_hitStep _ _ _ _ hwf
  · rw [if_neg h]
    exact wf_hitStep _ _ _ _ (wf_refill _ _ _ (wf_writebackIfDirty _ _ _ hwf))

lemma write_access_slot (c : Config) (s : CacheState) (a v : Nat)
    (hwf : WF c s) :
    ((access c s a (Op.write v)).1.slots (indexOf c a)).valid = true ∧
    ((access c s a (Op.write v)).1.slots (indexOf c a)).tag = tagOf c a ∧
    ((access c s a (Op.write v)).1.slots (indexOf c a)).data.getD
      (offsetOf c a) 0 = v := by
  by_cases h : isHit c s a = true
  · have hp := hit_parts c s a h
    have hlen : offsetOf c a < ((s.slots (indexOf c a)).data).length := by
      rw [hwf.2]
      exact Nat.mod_lt _ (by positivity)
    unfold access
    rw [if_pos h]
    simp [hitStep, hp.1, hp.2]
    exact getElem?_set_self _ _ _ hlen
  · have hwf1 := wf_writebackIfDirty c s a hwf
    have hlen : offsetOf c a <
        ((writebackIfDirty c s a).1.mem
          (blockAddr c (tagOf c a) (indexOf c a))).length := by
      rw [hwf1.1]
      exact Nat.mod_lt _ (by positivity)
    unfold access
    rw [if_neg h]
    simp [refill, hitStep]
    exact getElem?_set_self _ _ _ hlen

lemma run_preserves_slot (c : Config) (idx t : Nat)
    (reqs : List (Nat × Op)) :
    ∀ s : CacheState, (s.slots idx).valid = true → (s.slots idx).tag = t →
    (∀ r ∈ reqs, indexOf c r.1 ≠ idx ∨
      (tagOf c r.1 = t ∧ indexOf c r.1 = idx ∧ r.2 = Op.read)) →
    (run c s reqs).slots idx = s.slots idx := by
  induction reqs with
  | nil =>
    intro s _ _ _
    rfl
  | cons r rs ih =>
    intro s hv ht hreqs
    rcases hreqs r (List.mem_cons_self r rs) with hne | ⟨htag, hidx, hop⟩
    · have hs : (access c s r.1 r.2).1.slots idx = s.slots idx :=
        access_preserves_other_slot c s r.1 r.2 idx hne
      show (run c (access c s r.1 r.2).1 rs).slots idx = s.slots idx
      rw [ih (access c s r.1 r.2).1 (by rw [hs]; exact hv)
        (by rw [hs]; exact ht)
        (fun r2 hr2 => hreqs r2 (List.mem_cons_of_mem r hr2)), hs]
    · have hhit : isHit c s r.1 = true := by
        simp [isHit, hidx, hv, ht, htag]
      have hstate : (access c s r.1 r.2).1 = s := by
        rw [hop]
        exact read_hit_state_id c s r.1 hhit
      show (run c (access c s r.1 r.2).1 rs).slots idx = s.slots idx
      rw [hstate, ih s hv ht
        (fun r2 hr2 => hreqs r2 (List.mem_cons_of_mem r hr2))]

lemma getD_replicate_append_lt (n k : Nat) (hk : k < n) :
    (List.replicate n true ++ [false]).getD k false = true := by
  induction n generalizing k with
  | zero => exact absurd hk (Nat.not_lt_zero k)
  | succ m ih =>
    cases k with
    | zero => rfl
    | succ j => exact ih j (Nat.lt_of_succ_lt_succ hk)

lemma getD_replicate_append_end (n : Nat) :
    (List.replicate n true ++ [false]).getD n true = false := by
  induction n with
  | zero => rfl
  | succ m ih => exact ih

lemma wf_stClean : WF cfg0 stClean := by
  constructor
  · intro b
    rfl
  · intro j
    by_cases h : j = 1 <;> simp [stClean, h, cfg0]

lemma wf_stDirty : WF cfg0 stDirty := by
  constructor
  · intro b
    rfl
  · intro j
    by_cases h : j = 1 <;> simp [stDirty, h, cfg0]

end DMCache

namespace DMCache

/-- C2: the slot selected by the address's index field is classified as a hit
iff the slot's valid flag is true and its stored tag equals the address's tag
field; a slot with valid = false never hits. -/
theorem hit_iff_valid_and_tag_match (c : Config) (s : CacheState) (a : Nat) :
    (isHit c s a = true ↔
      ((s.slots (indexOf c a)).valid = true ∧
        (s.slots (indexOf c a)).tag = tagOf c a)) ∧
    ((s.slots (indexOf c a)).valid = false → isHit c s a = false) := by
  unfold isHit
  constructor
  · simp
  · intro h
    simp [h]

/-- Witness for C2 at a concrete hit: address 37 in `cfg0` has tag 2,
index 1, and slot 1 of `stClean` is valid with tag 2. -/
theorem hit_iff_valid_and_tag_match_witness :
    (isHit cfg0 stClean 37 = true ↔
      ((stClean.slots (indexOf cfg0 37)).valid = true ∧
        (stClean.slots (indexOf cfg0 37)).tag = tagOf cfg0 37)) ∧
    ((stClean.slots (indexOf cfg0 37)).valid = false →
      isHit cfg0 stClean 37 = false) :=
  hit_iff_valid_and_tag_match cfg0 stClean 37

/-- C9: the address decomposition is a lossless bijection: every address of
the configured width splits into exactly one in-range (tag, index, offset)
triple, the triple reconstructs the address, and distinct (tag, index) pairs
always denote distinct memory blocks. -/
theorem address_decomposition_bijective (c : Config)
    (a t i o t2 i2 : Nat) (ha : a < 2 ^ c.addrWidth) :
    (tagOf c a < 2 ^ c.tagBits ∧ indexOf c a < 2 ^ c.indexBits ∧
      offsetOf c a < 2 ^ c.offsetBits ∧
      recompose c (tagOf c a) (indexOf c a) (offsetOf c a) = a) ∧
    (t < 2 ^ c.tagBits → i < 2 ^ c.indexBits → o < 2 ^ c.offsetBits →
      recompose c t i o = a →
      t = tagOf c a ∧ i = indexOf c a ∧ o = offsetOf c a) ∧
    (i < 2 ^ c.indexBits → i2 < 2 ^ c.indexBits →
      blockAddr c t i = blockAddr c t2 i2 → t = t2 ∧ i = i2) := by
  refine ⟨⟨?_, ?_, ?_, recompose_decompose c a⟩, ?_, ?_⟩
  · unfold tagOf
    rw [Nat.div_lt_iff_lt_mul (by positivity)]
    calc a < 2 ^ c.addrWidth := ha
    _ = 2 ^ c.tagBits * 2 ^ (c.indexBits + c.offsetBits) := by
          rw [← pow_add, Config.addrWidth, add_assoc]
  · exact Nat.mod_lt _ (by positivity)
  · exact Nat.mod_lt _ (by positivity)
  · intro _ hi ho hrec
    subst hrec
    exact ⟨(tagOf_recompose c t i o hi ho).symm,
      (indexOf_recompose c t i o hi ho).symm,
      (offsetOf_recompose c t i o ho).symm⟩
  · intro hi hi2 hb
    unfold blockAddr at hb
    have hmod := congrArg (fun x => x % 2 ^ c.indexBits) hb
    simp only [mul_add_mod_eq _ _ _ hi, mul_add_mod_eq _ _ _ hi2] at hmod
    have hdiv := congrArg (fun x => x / 2 ^ c.indexBits) hb
    simp only [mul_add_div_eq _ _ _ (by positivity) hi,
      mul_add_div_eq _ _ _ (by positivity) hi2] at hdiv
    exact ⟨hdiv, hmod⟩

/-- Witness for C9 at a concrete input: address 37 in `cfg0` (tag 2,
index 1, offset 1, and the pair check at (2, 1) against (3, 1)). -/
theorem address_decomposition_bijective_witness :
    (tagOf cfg0 37 < 2 ^ cfg0.tagBits ∧ indexOf cfg0 37 < 2 ^ cfg0.indexBits ∧
      offsetOf cfg0 37 < 2 ^ cfg0.offsetBits ∧
      recompose cfg0 (tagOf cfg0 37) (indexOf cfg0 37) (offsetOf cfg0 37) = 37) ∧
    (2 < 2 ^ cfg0.tagBits → 1 < 2 ^ cfg0.indexBits → 1 < 2 ^ cfg0.offsetBits →
      recompose cfg0 2 1 1 = 37 →
      2 = tagOf cfg0 37 ∧ 1 = indexOf cfg0 37 ∧ 1 = offsetOf cfg0 37) ∧
    (1 < 2 ^ cfg0.indexBits → 1 < 2 ^ cfg0.indexBits →
      blockAddr cfg0 2 1 = blockAddr cfg0 3 1 → 2 = 3 ∧ 1 = 1) :=
  address_decomposition_bijective cfg0 37 2 1 1 3 1 (by decide)

/-- C5: a write that hits updates only the hit slot's data at the address's
offset, sets that slot's dirty flag, and issues no memory-facing traffic:
the backing memory is untouched by a hit write. -/
theorem write_hit_cache_only (c : Config) (s : CacheState) (a w : Nat)
    (h : isHit c s a = true) :
    (access c s a (Op.write w)).1.slots (indexOf c a) =
      { s.slots (indexOf c a) with
        data := (s.slots (indexOf c a)).data.set (offsetOf c a) w,
        dirty := true } ∧
    (∀ j, j ≠ indexOf c a → (access c s a (Op.write w)).1.slots j = s.slots j) ∧
    (access c s a (Op.write w)).1.mem = s.mem ∧
    (access c s a (Op.write w)).2.2 = [] := by
  unfold access
  rw [if_pos h]
  unfold hitStep
  refine ⟨by simp, fun j hj => by simp [hj], rfl, rfl⟩

/-- Witness for C5: a concrete write hit at address 37 on `stClean`. -/
theorem write_hit_cache_only_witness :
    isHit cfg0 stClean 37 = true ∧
    ((access cfg0 stClean 37 (Op.write 99)).1.slots (indexOf cfg0 37) =
      { stClean.slots (indexOf cfg0 37) with
        data := (stClean.slots (indexOf cfg0 37)).data.set (offsetOf cfg0 37) 99,
        dirty := true } ∧
     (∀ j, j ≠ indexOf cfg0 37 →
       (access cfg0 stClean 37 (Op.write 99)).1.slots j = stClean.slots j) ∧
     (access cfg0 stClean 37 (Op.write 99)).1.mem = stClean.mem ∧
     (access cfg0 stClean 37 (Op.write 99)).2.2 = []) :=
  ⟨by decide, write_hit_cache_only cfg0 stClean 37 99 (by decide)⟩

/-- C7: a miss at an index whose slot is not valid skips the write-back
sub-step entirely and issues only the refill read on the memory interface. -/
theorem cold_miss_skips_writeback (c : Config) (s : CacheState) (a : Nat)
    (op : Op) (h : (s.slots (indexOf c a)).valid = false) :
    isHit c s a = false ∧
    writebackIfDirty c s a = (s, []) ∧
    (access c s a op).2.2 =
      [MemEvent.memRead (blockAddr c (tagOf c a) (indexOf c a))] := by
  have hmiss : isHit c s a = false := by
    unfold isHit
    simp [h]
  have hwb : writebackIfDirty c s a = (s, []) := by
    unfold writebackIfDirty
    simp [h]
  refine ⟨hmiss, hwb, ?_⟩
  unfold access
  rw [if_neg (by simp [hmiss])]
  simp [hwb, refill]

/-- Witness for C7: a concrete cold miss at address 0 on `stCold`. -/
theorem cold_miss_skips_writeback_witness :
    (stCold.slots (indexOf cfg0 0)).valid = false ∧
    (isHit cfg0 stCold 0 = false ∧
     writebackIfDirty cfg0 stCold 0 = (stCold, []) ∧
     (access cfg0 stCold 0 Op.read).2.2 =
       [MemEvent.memRead (blockAddr cfg0 (tagOf cfg0 0) (indexOf cfg0 0))]) :=
  ⟨by decide, cold_miss_skips_writeback cfg0 stCold 0 Op.read (by decide)⟩

/-- C4: after the refill sub-step of a miss, the slot at the request's index
holds exactly the block returned by memory for the new block address, its tag
is the address's tag field, valid is true and dirty is false. -/
theorem refill_postcondition (c : Config) (s : CacheState) (a : Nat)
    (_hmiss : isHit c s a = false) :
    ((refill c (writebackIfDirty c s a).1 a).1).slots (indexOf c a) =
      { tag := tagOf c a, valid := true, dirty := false,
        data := (writebackIfDirty c s a).1.mem
          (blockAddr c (tagOf c a) (indexOf c a)) } ∧
    (refill c (writebackIfDirty c s a).1 a).2 =
      [MemEvent.memRead (blockAddr c (tagOf c a) (indexOf c a))] := by
  unfold refill
  simp

/-- Witness for C4: the refill after a concrete dirty miss at address 5
(tag 0, index 1) on `stDirty`. -/
theorem refill_postcondition_witness :
    isHit cfg0 stDirty 5 = false ∧
    (((refill cfg0 (writebackIfDirty cfg0 stDirty 5).1 5).1).slots
        (indexOf cfg0 5) =
      { tag := tagOf cfg0 5, valid := true, dirty := false,
        data := (writebackIfDirty cfg0 stDirty 5).1.mem
          (blockAddr cfg0 (tagOf cfg0 5) (indexOf cfg0 5)) } ∧
     (refill cfg0 (writebackIfDirty cfg0 stDirty 5).1 5).2 =
       [MemEvent.memRead (blockAddr cfg0 (tagOf cfg0 5) (indexOf cfg0 5))]) :=
  ⟨by decide, refill_postcondition cfg0 stDirty 5 (by decide)⟩

/-- C1: on a miss whose resident slot is valid and dirty, the controller
issues exactly the memory write of the old block (at the old tag plus index)
followed by the memory read of the new block — the write is observed strictly
before the read — and the evicted dirty data survives in memory. -/
theorem writeback_before_refill (c : Config) (s : CacheState) (a : Nat)
    (op : Op) (hmiss : isHit c s a = false)
    (hvalid : (s.slots (indexOf c a)).valid = true)
    (hdirty : (s.slots (indexOf c a)).dirty = true) :
    (access c s a op).2.2 =
      [MemEvent.memWrite
         (blockAddr c (s.slots (indexOf c a)).tag (indexOf c a))
         (s.slots (indexOf c a)).data,
       MemEvent.memRead (blockAddr c (tagOf c a) (indexOf c a))] ∧
    (∃ iW iR : Nat, iW < iR ∧
      (access c s a op).2.2.get? iW =
        some (MemEvent.memWrite
          (blockAddr c (s.slots (indexOf c a)).tag (indexOf c a))
          (s.slots (indexOf c a)).data) ∧
      (access c s a op).2.2.get? iR =
        some (MemEvent.memRead (blockAddr c (tagOf c a) (indexOf c a)))) ∧
    (access c s a op).1.mem
        (blockAddr c (s.slots (indexOf c a)).tag (indexOf c a)) =
      (s.slots (indexOf c a)).data := by
  have hcond : ((s.slots (indexOf c a)).valid &&
      (s.slots (indexOf c a)).dirty) = true := by
    rw [hvalid, hdirty]
    rfl
  have hev : (access c s a op).2.2 =
      [MemEvent.memWrite
         (blockAddr c (s.slots (indexOf c a)).tag (indexOf c a))
         (s.slots (indexOf c a)).data,
       MemEvent.memRead (blockAddr c (tagOf c a) (indexOf c a))] := by
    unfold access
    rw [if_neg (by simp [hmiss])]
    simp [writebackIfDirty, hcond, refill]
  refine ⟨hev, ⟨0, 1, Nat.zero_lt_one, by rw [hev]; rfl, by rw [hev]; rfl⟩, ?_⟩
  unfold access
  rw [if_neg (by simp [hmiss])]
  cases op with
  | read => simp [writebackIfDirty, hcond, refill, hitStep]
  | write w => simp [writebackIfDirty, hcond, refill, hitStep]

/-- Witness for C1: a concrete dirty miss at address 5 on `stDirty`
(old tag 3 at index 1 written back, then refill of tag 0 at index 1). -/
theorem writeback_before_refill_witness :
    (isHit cfg0 stDirty 5 = false ∧
     (stDirty.slots (indexOf cfg0 5)).valid = true ∧
     (stDirty.slots (indexOf cfg0 5)).dirty = true) ∧
    ((access cfg0 stDirty 5 Op.read).2.2 =
      [MemEvent.memWrite
         (blockAddr cfg0 (stDirty.slots (indexOf cfg0 5)).tag (indexOf cfg0 5))
         (stDirty.slots (indexOf cfg0 5)).data,
       MemEvent.memRead (blockAddr cfg0 (tagOf cfg0 5) (indexOf cfg0 5))] ∧
     (∃ iW iR : Nat, iW < iR ∧
       (access cfg0 stDirty 5 Op.read).2.2.get? iW =
         some (MemEvent.memWrite
           (blockAddr cfg0 (stDirty.slots (indexOf cfg0 5)).tag
             (indexOf cfg0 5))
           (stDirty.slots (indexOf cfg0 5)).data) ∧
       (access cfg0 stDirty 5 Op.read).2.2.get? iR =
         some (MemEvent.memRead
           (blockAddr cfg0 (tagOf cfg0 5) (indexOf cfg0 5)))) ∧
     (access cfg0 stDirty 5 Op.read).1.mem
         (blockAddr cfg0 (stDirty.slots (indexOf cfg0 5)).tag
           (indexOf cfg0 5)) =
       (stDirty.slots (indexOf cfg0 5)).data) :=
  ⟨⟨by decide, by decide, by decide⟩,
   writeback_before_refill cfg0 stDirty 5 Op.read (by decide) (by decide)
     (by decide)⟩

/-- C6: a write that misses first performs the full refill sequence and only
then applies the write as in the hit path: the refilled slot is a hit for the
request, the whole access equals write-back events, refill event and the hit
path applied to the refilled state, and the line is left fully loaded (its
data has the full block length). -/
theorem write_miss_resolves_as_hit (c : Config) (s : CacheState) (a v : Nat)
    (hwf : WF c s) (hmiss : isHit c s a = false) :
    isHit c (refill c (writebackIfDirty c s a).1 a).1 a = true ∧
    access c s a (Op.write v) =
      ((hitStep c (refill c (writebackIfDirty c s a).1 a).1 a
          (Op.write v)).1, 0,
        (writebackIfDirty c s a).2 ++
          (refill c (writebackIfDirty c s a).1 a).2) ∧
    ((access c s a (Op.write v)).1.slots (indexOf c a)).data.length =
      2 ^ c.offsetBits := by
  refine ⟨?_, ?_, (wf_access c s a (Op.write v) hwf).2 (indexOf c a)⟩
  · unfold isHit refill
    simp
  · unfold access
    rw [if_neg (by simp [hmiss])]
    rfl

/-- Witness for C6: a concrete write miss at address 5 on `stDirty`. -/
theorem write_miss_resolves_as_hit_witness :
    (WF cfg0 stDirty ∧ isHit cfg0 stDirty 5 = false) ∧
    (isHit cfg0 (refill cfg0 (writebackIfDirty cfg0 stDirty 5).1 5).1 5 =
        true ∧
     access cfg0 stDirty 5 (Op.write 77) =
       ((hitStep cfg0 (refill cfg0 (writebackIfDirty cfg0 stDirty 5).1 5).1 5
           (Op.write 77)).1, 0,
         (writebackIfDirty cfg0 stDirty 5).2 ++
           (refill cfg0 (writebackIfDirty cfg0 stDirty 5).1 5).2) ∧
     ((access cfg0 stDirty 5 (Op.write 77)).1.slots (indexOf cfg0 5)).data.length
       = 2 ^ cfg0.offsetBits) :=
  ⟨⟨wf_stDirty, by decide⟩,
   write_miss_resolves_as_hit cfg0 stDirty 5 77 wf_stDirty (by decide)⟩

/-- C3: if the most recent access to a block was a write of `v` — every
later request either maps to a different index or is a read hit of the same
block, so the slot is never refilled in between — then a subsequent read of
the same address hits and returns exactly `v`. -/
theorem hit_correctness (c : Config) (s0 : CacheState) (a v : Nat)
    (reqs : List (Nat × Op)) (hwf : WF c s0)
    (hreqs : ∀ r ∈ reqs, indexOf c r.1 ≠ indexOf c a ∨
      (tagOf c r.1 = tagOf c a ∧ indexOf c r.1 = indexOf c a ∧
        r.2 = Op.read)) :
    isHit c (run c (access c s0 a (Op.write v)).1 reqs) a = true ∧
    (access c (run c (access c s0 a (Op.write v)).1 reqs) a Op.read).2.1 =
      v := by
  obtain ⟨hv, ht, hd⟩ := write_access_slot c s0 a v hwf
  have hrun := run_preserves_slot c (indexOf c a) (tagOf c a) reqs
    (access c s0 a (Op.write v)).1 hv ht hreqs
  set s2 := run c (access c s0 a (Op.write v)).1 reqs with hs2
  have hhit : isHit c s2 a = true := by
    simp [isHit, hrun, hv, ht]
  refine ⟨hhit, ?_⟩
  have haccess : access c s2 a Op.read =
      ((hitStep c s2 a Op.read).1, (hitStep c s2 a Op.read).2, []) := by
    unfold access
    rw [if_pos hhit]
  rw [haccess]
  show (s2.slots (indexOf c a)).data.getD (offsetOf c a) 0 = v
  rw [hrun]
  exact hd

/-- Witness for C3: write 99 to address 37 on `stClean` (a hit), then a read
of index 0 and a read hit of the same block, then read address 37 back. -/
theorem hit_correctness_witness :
    (WF cfg0 stClean ∧
     (∀ r ∈ [((2 : Nat), Op.read), ((37 : Nat), Op.read)],
       indexOf cfg0 r.1 ≠ indexOf cfg0 37 ∨
       (tagOf cfg0 r.1 = tagOf cfg0 37 ∧ indexOf cfg0 r.1 = indexOf cfg0 37 ∧
         r.2 = Op.read))) ∧
    (isHit cfg0
        (run cfg0 (access cfg0 stClean 37 (Op.write 99)).1
          [((2 : Nat), Op.read), ((37 : Nat), Op.read)]) 37 = true ∧
     (access cfg0
        (run cfg0 (access cfg0 stClean 37 (Op.write 99)).1
          [((2 : Nat), Op.read), ((37 : Nat), Op.read)]) 37 Op.read).2.1 =
       99) :=
  ⟨⟨wf_stClean, by decide⟩,
   hit_correctness cfg0 stClean 37 99 [((2 : Nat), Op.read), ((37 : Nat), Op.read)]
     wf_stClean (by decide)⟩

/-- C8: the `cpu_wait` signal is never asserted for a hit; on a miss it is
asserted for the controller's entire service duration and deasserted exactly
one cycle after the final refill sub-step completes. -/
theorem stall_discipline (c : Config) (s : CacheState) (a wbLat rfLat : Nat) :
    (isHit c s a = true → ∀ b ∈ cpu_wait c s a wbLat rfLat, b = false) ∧
    (isHit c s a = false →
      (∀ k, k < missCycles c s a wbLat rfLat →
        (cpu_wait c s a wbLat rfLat).getD k false = true) ∧
      (cpu_wait c s a wbLat rfLat).getD (missCycles c s a wbLat rfLat) true =
        false) := by
  constructor
  · intro h b hb
    unfold cpu_wait at hb
    rw [if_pos h] at hb
    simpa using hb
  · intro h
    unfold cpu_wait
    rw [if_neg (by simp [h])]
    exact ⟨fun k hk => getD_replicate_append_lt _ k hk,
      getD_replicate_append_end _⟩

/-- Witness for C8: a concrete dirty miss at address 5 on `stDirty` with
write-back latency 2 and refill latency 3 (5 busy cycles, then low). -/
theorem stall_discipline_witness :
    isHit cfg0 stDirty 5 = false ∧
    ((∀ k, k < missCycles cfg0 stDirty 5 2 3 →
       (cpu_wait cfg0 stDirty 5 2 3).getD k false = true) ∧
     (cpu_wait cfg0 stDirty 5 2 3).getD (missCycles cfg0 stDirty 5 2 3) true =
       false) :=
  ⟨by decide, (stall_discipline cfg0 stDirty 5 2 3).2 (by decide)⟩

/-- C10: `access` signals no runtime error — every address completes as a
hit (no memory traffic) or a miss (with memory traffic), with no
out-of-range check — while malformed configuration parameters are rejected
at construction time by `mkConfig`. -/
theorem access_never_fails (c : Config) (s : CacheState) (a : Nat) (op : Op)
    (aw nl bs : Nat) :
    ((isHit c s a = true ∧ (access c s a op).2.2 = []) ∨
      (isHit c s a = false ∧ (access c s a op).2.2 ≠ [])) ∧
    ((mkConfig aw nl bs).isSome = true ↔
      (isPow2 nl = true ∧ isPow2 bs = true ∧
        Nat.log2 nl + Nat.log2 bs ≤ aw)) := by
  constructor
  · by_cases h : isHit c s a = true
    · left
      refine ⟨h, ?_⟩
      unfold access
      rw [if_pos h]
    · right
      rw [Bool.not_eq_true] at h
      refine ⟨h, ?_⟩
      unfold access
      rw [if_neg (by simp [h])]
      simp [refill]
  · unfold mkConfig
    by_cases hc : (isPow2 nl = true ∧ isPow2 bs = true ∧
        Nat.log2 nl + Nat.log2 bs ≤ aw)
    · rw [if_pos hc]
      simpa using hc
    · rw [if_neg hc]
      simpa using hc

/-- Witness for C10 at concrete inputs: a cold access on `stCold` and the
parameter set (address width 6, 4 lines, 4-unit blocks). -/
theorem access_never_fails_witness :
    ((isHit cfg0 stCold 0 = true ∧ (access cfg0 stCold 0 Op.read).2.2 = []) ∨
      (isHit cfg0 stCold 0 = false ∧
        (access cfg0 stCold 0 Op.read).2.2 ≠ [])) ∧
    ((mkConfig 6 4 4).isSome = true ↔
      (isPow2 4 = true ∧ isPow2 4 = true ∧
        Nat.log2 4 + Nat.log2 4 ≤ 6)) :=
  access_never_fails cfg0 stCold 0 Op.read 6 4 4

end DMCache
